import Mathlib

/-!
Verification of the paginated report fetcher in `src/main.js` of
forresttanaka/search-array-lengths.  JavaScript values occurring in the
server's JSON responses are embedded as `JValue`; the per-page fetch
(`getChunk`), the pagination loop (`getAllChunks`), the dotted-path
extractor (`getObjectFieldValue`), the query-string encoder
(`encodedURIComponent`) and the auth-string builder (`keypairToAuth`)
are translated function by function from the source.  The loop is run
against an explicit list of fetch outcomes (one per request issued) and
instrumented with the offsets requested, the progress-bar calls made and
the number of records iterated over, so that the pagination, ordering
and progress claims can be stated about one definition.
-/

namespace SearchArrayLengths

/-- JSON/JavaScript values as delivered by the portal: null, booleans,
numbers (the reports only carry integral numbers, embedded as `Int`),
strings, arrays and objects (ordered key/value lists with unique keys). -/
inductive JValue where
  | vNull : JValue
  | vBool : Bool → JValue
  | vNum : Int → JValue
  | vStr : String → JValue
  | vArr : List JValue → JValue
  | vObj : List (String × JValue) → JValue

/-- One record of a report page: a JSON object, i.e. its key/value list. -/
abbrev Record := List (String × JValue)

/-- JavaScript property lookup on a plain object: the value stored under
`key`, or `none` (undefined) when the key is absent. -/
def lookupKey : List (String × JValue) → String → Option JValue
  | [], _ => none
  | (k, v) :: rest, key => if k = key then some v else lookupKey rest key

/-- JavaScript truthiness of a (defined) value: null, `false`, `0` and the
empty string are falsy; every array and object is truthy. -/
def truthy : JValue → Bool
  | .vNull => false
  | .vBool b => b
  | .vNum n => if n = 0 then false else true
  | .vStr s => if s = "" then false else true
  | .vArr _ => true
  | .vObj _ => true

/-- The `.length` property of a value, when it is a (nonnegative) number:
strings and arrays have their length, an object has whatever sits under
its literal "length" key.  Every other case is `none`, standing for a
`.length` read that does not produce a number usable by the filter's
comparisons (for `undefined`, JavaScript's `>=`/`<=` yield `false`; a
negative numeric "length" can never reach the filter's lower bound, which
is a count, so it is folded into `none` as well). -/
def lengthProp : JValue → Option Nat
  | .vStr s => some s.length
  | .vArr xs => some xs.length
  | .vObj kvs =>
    match lookupKey kvs "length" with
    | some (.vNum n) => if n < 0 then none else some n.toNat
    | _ => none
  | _ => none

/-- Splitting a character list at every occurrence of `sep`, exactly as
JavaScript's `field.split('.')` does on the underlying characters: the
empty string splits to one empty part, separators at the ends produce
empty parts. -/
def splitOnChar (sep : Char) : List Char → List (List Char)
  | [] => [[]]
  | c :: rest =>
    if c = sep then [] :: splitOnChar sep rest
    else
      match splitOnChar sep rest with
      | [] => [[c]]
      | t :: ts => (c :: t) :: ts

/-- JavaScript property access `v[key]` for a truthy value `v` (the walk in
`getObjectFieldValue` only indexes values it has found truthy): objects
look the key up, arrays and strings answer "length" and canonical numeric
indices, and every other access is undefined. -/
def jsIndex : JValue → String → Option JValue
  | .vObj kvs, key => lookupKey kvs key
  | .vArr xs, key =>
    if key = "length" then some (.vNum (xs.length : Int))
    else
      match key.toNat? with
      | some i => if toString i = key then xs.get? i else none
      | none => none
  | .vStr s, key =>
    if key = "length" then some (.vNum (s.length : Int))
    else
      match key.toNat? with
      | some i => if toString i = key then (s.data.get? i).map (fun c => JValue.vStr (String.mk [c])) else none
      | none => none
  | _, _ => none

/-- The reduction step of `getObjectFieldValue` (src/main.js:238):
`parts.reduce((partObject, part) => partObject && partObject[part], object)`.
An undefined accumulator stays undefined, a falsy defined accumulator is
returned unchanged by `&&`, and a truthy one is indexed. -/
def walkPath (start : Option JValue) (parts : List String) : Option JValue :=
  parts.foldl
    (fun partObject part =>
      match partObject with
      | none => none
      | some v => if truthy v then jsIndex v part else some v)
    start

/-- Embedding of `getObjectFieldValue` (src/main.js:233-239): split the
dotted field, read a single-part field directly off the object, otherwise
walk the parts with the guarded reduction. -/
def getObjectFieldValue (object : Record) (field : String) : Option JValue :=
  let parts := (splitOnChar '.' field.data).map String.mk
  if parts.length = 1 then lookupKey object field
  else walkPath (some (.vObj object)) parts

/-- The characters strictly before the last occurrence of `sep`, i.e.
JavaScript's `s.substring(0, s.lastIndexOf(sep))` for a string known to
contain `sep`: drop the trailing run of non-separators and the final
separator itself. -/
def beforeLast (sep : Char) (l : List Char) : List Char :=
  (((l.reverse.dropWhile (fun c => decide (¬ c = sep))).drop 1)).reverse

/-- Embedding of the parent-path computation (src/main.js:306):
`field.includes('.') ? field.substring(0, field.lastIndexOf('.')) : field`. -/
def parentPath (field : String) : String :=
  if ('.') ∈ field.data then String.mk (beforeLast '.' field.data) else field

mutual

/-- JavaScript string conversion of a defined value, as performed by a
template literal: strings stay themselves, arrays join their elements
with commas (null elements becoming empty), objects print their generic
tag. -/
def jsValueToString : JValue → String
  | .vStr s => s
  | .vNum n => toString n
  | .vBool b => if b then "true" else "false"
  | .vNull => "null"
  | .vArr xs => jsArrayToString xs
  | .vObj _ => "[object Object]"

/-- Comma-joined rendering of an array's elements, null rendering empty. -/
def jsArrayToString : List JValue → String
  | [] => ""
  | [v] =>
    match v with
    | JValue.vNull => ""
    | v => jsValueToString v
  | v :: rest =>
    (match v with
     | JValue.vNull => ""
     | v => jsValueToString v) ++ "," ++ jsArrayToString rest

end

/-- Interpolation `${x}` of a possibly undefined value into a template
literal. -/
def jsTemplate : Option JValue → String
  | none => "undefined"
  | some v => jsValueToString v

/-- What the loop body (src/main.js:305-310) appends for one record, if
anything: resolve the parent path, and when the value is truthy and its
length passes both inclusive bounds, produce the "<id> - <length>" line.
`greater` is the lower bound and `less` the upper bound, as in the source. -/
def matchLine (field : String) (less greater : Nat) (obj : Record) : Option String :=
  match getObjectFieldValue obj (parentPath field) with
  | none => none
  | some value =>
    if truthy value then
      match lengthProp value with
      | some k =>
        if greater ≤ k ∧ k ≤ less then
          some (jsTemplate (lookupKey obj "@id") ++ " - " ++ toString k)
        else none
      | none => none
    else none

/-- One `forEach` iteration of src/main.js:305-311: push the record's line
onto the results when the guard passes, leave them unchanged otherwise. -/
def forEachBody (field : String) (less greater : Nat) (res : List String) (obj : Record) :
    List String :=
  match matchLine field less greater obj with
  | some line => res ++ [line]
  | none => res

/-- The whole `chunk['@graph'].forEach(...)` of one page, folding the body
over the page's records in order. -/
def processPage (field : String) (less greater : Nat) (acc : List String)
    (graph : List Record) : List String :=
  graph.foldl (forEachBody field less greater) acc

/-- Number of objects requested per page (src/main.js:162). -/
def CHUNK_SIZE : Nat := 500

/-- One parsed page of search results: its reported `total` and its
`@graph` record array. -/
structure Chunk where
  total : Nat
  graph : List Record

/-- The outcome of one page request, as seen by `getChunk`'s promise
chain: a parsed page on success, a non-success HTTP status (the `not ok`
throw), or a rejected fetch (network failure). -/
inductive FetchOutcome where
  | success : Chunk → FetchOutcome
  | httpError : FetchOutcome
  | networkError : FetchOutcome

/-- Embedding of `getChunk`'s error boundary (src/main.js:263-276): a
successful response is parsed and returned; a thrown `not ok` error or a
rejected fetch is caught by `.catch`, logged via the
`OBJECT LOAD ERROR` line, and the call resolves to `undefined` (`none`).
The second component is the list of diagnostic lines emitted. -/
def getChunk : FetchOutcome → Option Chunk × List String
  | .success c => (some c, [])
  | .httpError => (none, ["OBJECT LOAD ERROR: Error: not ok"])
  | .networkError => (none, ["OBJECT LOAD ERROR: FetchError"])

/-- The runtime error that kills the process: reading a property
(`chunk['@graph']`, src/main.js:295) off `undefined`. -/
inductive JsError where
  | typeError : JsError
deriving DecidableEq, Repr

/-- Calls made on the progress bar: `progressBar.start(total, 0)` and
`progressBar.update(from)`. -/
inductive ProgressEvent where
  | start : Nat → Nat → ProgressEvent
  | update : Nat → ProgressEvent
deriving DecidableEq, Repr

/-- Recognizer for `start` events, used to count bar initializations. -/
def ProgressEvent.isStart : ProgressEvent → Bool
  | .start _ _ => true
  | .update _ => false

/-- Observable outcome of a terminating run of `getAllChunks`: the
accumulated result lines, the offsets of the page requests issued (in
order), the progress-bar calls made (in order), and how many records the
`forEach` loops iterated over in total. -/
structure RunOutcome where
  results : List String
  offsets : List Nat
  events : List ProgressEvent
  considered : Nat
deriving DecidableEq, Repr

/-- The `while (!chunksEnded)` loop of `getAllChunks`
(src/main.js:288-319), run against the list of outcomes the server
produces for the successive requests.  Each iteration issues one request
(recording its offset), crashes with a `TypeError` when `getChunk`
resolved to `undefined`, stops when the page's record array is empty,
and otherwise starts the progress bar while `total` is still `0`,
filters the page's records, advances `from` by `CHUNK_SIZE` and updates
the bar to the new offset.  An exhausted outcome list means the server
never answered with an empty page; the source loop would keep requesting
forever, which the embedding reports as `Except.ok none`. -/
def getAllChunksGo (field : String) (less greater : Nat) :
    List FetchOutcome → Nat → Nat → List String → List Nat → List ProgressEvent → Nat →
    Except JsError (Option RunOutcome)
  | [], _, _, _, _, _, _ => Except.ok none
  | oc :: rest, fromOfs, total, results, offsets, events, considered =>
    let offsets2 := offsets ++ [fromOfs]
    match (getChunk oc).1 with
    | none => Except.error JsError.typeError
    | some chunk =>
      if chunk.graph.length = 0 then
        Except.ok (some ⟨results, offsets2, events, considered⟩)
      else
        let startState :=
          if total = 0 then (chunk.total, events ++ [ProgressEvent.start chunk.total 0])
          else (total, events)
        getAllChunksGo field less greater rest (fromOfs + CHUNK_SIZE) startState.1
          (processPage field less greater results chunk.graph) offsets2
          (startState.2 ++ [ProgressEvent.update (fromOfs + CHUNK_SIZE)])
          (considered + chunk.graph.length)

/-- Embedding of `getAllChunks` (src/main.js:288-319) from its initial
state `from = 0`, `total = 0`, empty results.  The host, auth, type and
filter arguments of the source only shape the request sent
(see `getChunkRequest`); its responses are abstracted as the outcome
list. -/
def getAllChunks (field : String) (less greater : Nat)
    (responses : List FetchOutcome) : Except JsError (Option RunOutcome) :=
  getAllChunksGo field less greater responses 0 0 [] [] [] 0

/-- Uppercase hexadecimal digit, as produced by `encodeURIComponent`. -/
def hexDigitChar (n : Nat) : Char :=
  "0123456789ABCDEF".data.getD n '0'

/-- UTF-8 encoding of one character, as the byte values
`encodeURIComponent` percent-escapes. -/
def utf8EncodeChar (c : Char) : List Nat :=
  let n := c.toNat
  if n < 128 then [n]
  else if n < 2048 then [192 + n / 64, 128 + n % 64]
  else if n < 65536 then [224 + n / 4096, 128 + (n / 64) % 64, 128 + n % 64]
  else [240 + n / 262144, 128 + (n / 4096) % 64, 128 + (n / 64) % 64, 128 + n % 64]

/-- The characters `encodeURIComponent` leaves unescaped: alphanumerics
and `- _ . ! ~ * ' ( )`. -/
def isUnescapedURIChar (c : Char) : Bool :=
  decide (('A' ≤ c ∧ c ≤ 'Z') ∨ ('a' ≤ c ∧ c ≤ 'z') ∨ ('0' ≤ c ∧ c ≤ '9') ∨
    c = '-' ∨ c = '_' ∨ c = '.' ∨ c = '!' ∨ c = '~' ∨ c = '*' ∨ c = Char.ofNat 39 ∨
    c = '(' ∨ c = ')')

/-- Percent-escape of one byte: `%` followed by two uppercase hex digits. -/
def percentEncodeByte (b : Nat) : List Char :=
  ['%', hexDigitChar (b / 16), hexDigitChar (b % 16)]

/-- JavaScript's `encodeURIComponent`: unescaped characters pass through,
every other character is replaced by the percent-escapes of its UTF-8
bytes. -/
def jsEncodeURIComponent (s : String) : String :=
  String.mk
    ((s.data.map (fun c =>
      if isUnescapedURIChar c then [c]
      else ((utf8EncodeChar c).map percentEncodeByte).flatten)).flatten)

/-- Global replacement of the fixed pattern `pat` by `rep`, scanning left
to right without overlap, exactly as the source's
`.replace(/pat/g, rep)` calls do.  Each step consumes at least one input
character, so a fuel equal to the input length runs the scan to the
end. -/
def replaceAllFuel (pat rep : List Char) : Nat → List Char → List Char
  | 0, s => s
  | _, [] => []
  | fuel + 1, c :: rest =>
    if pat ≠ [] ∧ pat.isPrefixOf (c :: rest) then
      rep ++ replaceAllFuel pat rep fuel ((c :: rest).drop pat.length)
    else c :: replaceAllFuel pat rep fuel rest

/-- String-level wrapper of `replaceAllFuel`. -/
def stringReplace (s pat rep : String) : String :=
  String.mk (replaceAllFuel pat.data rep.data s.data.length s.data)

/-- Embedding of `encodedURIComponent` (src/main.js:216-222):
`encodeURIComponent` followed by the four global replacements that
escape the parentheses, restore the literal colon and turn `%20` into
`+`. -/
def encodedURIComponent (value : String) : String :=
  stringReplace
    (stringReplace
      (stringReplace
        (stringReplace (jsEncodeURIComponent value) "(" "%28")
        ")" "%29")
      "%3A" ":")
    "%20" "+"

/-- Embedding of the request URL template (src/main.js:253): the
extra-filter segment is prefixed with `&` when the filter string is
truthy (nonempty) and omitted otherwise. -/
def searchUrl (host type filters : String) (fromOfs : Nat) (field : String) : String :=
  host ++ "/report/?type=" ++ type ++ (if filters = "" then "" else "&" ++ filters) ++
    "&limit=" ++ toString CHUNK_SIZE ++ "&from=" ++ toString fromOfs ++
    "&field=" ++ encodedURIComponent field

/-- An HTTP request as handed to the fetch library: method, URL and
header list. -/
structure FetchRequest where
  method : String
  url : String
  headers : List (String × String)
deriving DecidableEq, Repr

/-- The request `getChunk` issues (src/main.js:252-262), with the source's
parameter order `host, auth, type, field, filters, from`: a GET of the
search URL carrying exactly the Accept and Content-Type headers.  The
`auth` argument is accepted but appears nowhere in the request. -/
def getChunkRequest (host auth type field filters : String) (fromOfs : Nat) : FetchRequest :=
  { method := "GET"
    url := searchUrl host type filters fromOfs field
    headers := [("Accept", "application/json"), ("Content-Type", "application/json")] }

/-- UTF-8 byte sequence of a string. -/
def utf8Bytes (s : String) : List Nat :=
  (s.data.map utf8EncodeChar).flatten

/-- The binary string whose code points are the given byte values, which
is what `unescape(encodeURIComponent(s))` produces from `s`. -/
def binaryOfBytes (bytes : List Nat) : String :=
  String.mk (bytes.map Char.ofNat)

/-- The standard base64 alphabet. -/
def base64Chars : List Char :=
  "ABCDEFGHIJKLMNOPQRSTUVWXYZabcdefghijklmnopqrstuvwxyz0123456789+/".data

/-- Character of one 6-bit group. -/
def b64c (n : Nat) : Char :=
  base64Chars.getD n 'A'

/-- Standard base64 encoding of a byte list, with `=` padding, as
`Buffer.toString('base64')` produces. -/
def base64Encode : List Nat → String
  | [] => ""
  | [a] => String.mk [b64c (a / 4), b64c (a % 4 * 16), '=', '=']
  | [a, b] => String.mk [b64c (a / 4), b64c (a % 4 * 16 + b / 16), b64c (b % 16 * 4), '=']
  | a :: b :: c :: rest =>
    String.mk [b64c (a / 4), b64c (a % 4 * 16 + b / 16), b64c (b % 16 * 4 + c / 64), b64c (c % 64)]
      ++ base64Encode rest

/-- Embedding of `keypairToAuth` (src/main.js:175-177):
`Basic ` followed by the base64 of `Buffer.from(unescape(encodeURIComponent(key + ':' + secret)))`.
`unescape(encodeURIComponent(...))` yields the UTF-8 bytes as a binary
string, which `Buffer.from` then encodes as UTF-8 again (for ASCII
credentials the two encodings coincide). -/
def keypairToAuth (key secret : String) : String :=
  "Basic " ++ base64Encode (utf8Bytes (binaryOfBytes (utf8Bytes (key ++ ":" ++ secret))))

/-- One entry of the keyfile: access key, secret and server URL. -/
structure KeyfileEntry where
  key : String
  secret : String
  server : String

/-- The page request the program's main flow issues (src/main.js:335-338):
the Basic-Auth string is computed from the keyfile entry and passed into
the fetch routine. -/
def mainChunkRequest (entry : KeyfileEntry) (type field filters : String)
    (fromOfs : Nat) : FetchRequest :=
  getChunkRequest entry.server (keypairToAuth entry.key entry.secret) type field filters fromOfs

/-- Default lower bound of the length filter: option `-g` defaults to
`'1'` (src/main.js:328), which the comparison coerces to the number 1. -/
def defaultGreater : Nat := 1

/-- Default upper bound of the length filter: option `-l` defaults to
`Number.MAX_VALUE` (src/main.js:329), whose exact integer value is
(2^53 - 1) * 2^971. -/
def defaultLess : Nat := (2 ^ 53 - 1) * 2 ^ 971

/-- The offsets requested over `n` consecutive nonempty pages starting at
`fromOfs`: one request per page, each advancing by `CHUNK_SIZE`. -/
def offsetsFrom (fromOfs : Nat) : Nat → List Nat
  | 0 => []
  | n + 1 => fromOfs :: offsetsFrom (fromOfs + CHUNK_SIZE) n

/-- The progress-bar updates emitted over `n` consecutive nonempty pages
starting at offset `fromOfs`, each to the advanced offset. -/
def updatesFrom (fromOfs : Nat) : Nat → List ProgressEvent
  | 0 => []
  | n + 1 =>
    ProgressEvent.update (fromOfs + CHUNK_SIZE) :: updatesFrom (fromOfs + CHUNK_SIZE) n

lemma offsetsFrom_eq (n : Nat) :
    ∀ fromOfs, offsetsFrom fromOfs n = (List.range n).map (fun i => fromOfs + CHUNK_SIZE * i) := by
  induction n with
  | zero => intro f; rfl
  | succ n ih =>
    intro f
    rw [List.range_succ_eq_map]
    simp only [offsetsFrom, ih, List.map_cons, List.map_map]
    refine List.cons_eq_cons.mpr ⟨by simp, ?_⟩
    refine List.map_congr_left (fun i _ => ?_)
    simp only [Function.comp_apply, Nat.mul_succ]
    omega

lemma updatesFrom_eq (n : Nat) :
    ∀ fromOfs, updatesFrom fromOfs n =
      (List.range n).map (fun i => ProgressEvent.update (fromOfs + CHUNK_SIZE * (i + 1))) := by
  induction n with
  | zero => intro f; rfl
  | succ n ih =>
    intro f
    rw [List.range_succ_eq_map]
    simp only [updatesFrom, ih, List.map_cons, List.map_map]
    refine List.cons_eq_cons.mpr ⟨congrArg ProgressEvent.update (by ring), ?_⟩
    refine List.map_congr_left (fun i _ => ?_)
    simp only [Function.comp_apply, Nat.succ_eq_add_one]
    exact congrArg ProgressEvent.update (by ring)

lemma processPage_eq (field : String) (less greater : Nat) :
    ∀ (graph : List Record) (acc : List String),
      processPage field less greater acc graph =
        acc ++ graph.filterMap (matchLine field less greater) := by
  intro graph
  induction graph with
  | nil => intro acc; simp [processPage]
  | cons obj g ih =>
    intro acc
    rw [processPage, List.foldl_cons,
      show List.foldl (forEachBody field less greater) (forEachBody field less greater acc obj) g =
        processPage field less greater (forEachBody field less greater acc obj) g from rfl,
      ih]
    unfold forEachBody
    cases h : matchLine field less greater obj <;>
      simp [h, List.filterMap_cons, List.append_assoc]

/-- Running the loop over a block of successfully fetched nonempty pages
reaches the remaining outcomes with: the offset advanced one `CHUNK_SIZE`
per page, each page's matching lines appended in page-then-record order,
the request offsets recorded, and every record of the block counted as
considered.  The resulting `total` and progress events depend on the
pages' reported totals and are returned existentially here. -/
lemma go_pages (field : String) (less greater : Nat) :
    ∀ (pre : List Chunk), (∀ c ∈ pre, c.graph.length ≠ 0) →
    ∀ (rest : List FetchOutcome) (fromOfs total : Nat) (results : List String)
      (offsets : List Nat) (events : List ProgressEvent) (considered : Nat),
    ∃ total2 events2,
      getAllChunksGo field less greater (pre.map FetchOutcome.success ++ rest)
          fromOfs total results offsets events considered =
        getAllChunksGo field less greater rest (fromOfs + CHUNK_SIZE * pre.length) total2
          (results ++ (pre.map (fun c => c.graph.filterMap (matchLine field less greater))).flatten)
          (offsets ++ offsetsFrom fromOfs pre.length)
          events2
          (considered + (pre.map (fun c => c.graph.length)).sum) := by
  intro pre
  induction pre with
  | nil =>
    intro _ rest fromOfs total results offsets events considered
    exact ⟨total, events, by simp [offsetsFrom]⟩
  | cons c pre ih =>
    intro hne rest fromOfs total results offsets events considered
    have hc : c.graph.length ≠ 0 := hne c (List.mem_cons_self c pre)
    have hpre : ∀ d ∈ pre, d.graph.length ≠ 0 := fun d hd => hne d (List.mem_cons_of_mem c hd)
    have h1 : fromOfs + CHUNK_SIZE + CHUNK_SIZE * pre.length =
        fromOfs + CHUNK_SIZE * (c :: pre).length := by
      rw [List.length_cons, Nat.mul_succ]; omega
    have h3 : (offsets ++ [fromOfs]) ++ offsetsFrom (fromOfs + CHUNK_SIZE) pre.length =
        offsets ++ offsetsFrom fromOfs (c :: pre).length := by
      simp [offsetsFrom, List.append_assoc]
    have h4 : considered + c.graph.length +
          (pre.map (fun c => c.graph.length)).sum =
        considered + ((c :: pre).map (fun c => c.graph.length)).sum := by
      simp; omega
    have h2 : ∀ r : List String,
        processPage field less greater r c.graph ++
          (pre.map (fun c => c.graph.filterMap (matchLine field less greater))).flatten =
        r ++ ((c :: pre).map (fun c => c.graph.filterMap (matchLine field less greater))).flatten := by
      intro r
      rw [processPage_eq]
      simp [List.append_assoc]
    by_cases ht : total = 0
    · obtain ⟨t2, e2, he⟩ := ih hpre rest (fromOfs + CHUNK_SIZE) c.total
        (processPage field less greater results c.graph) (offsets ++ [fromOfs])
        ((events ++ [ProgressEvent.start c.total 0]) ++
          [ProgressEvent.update (fromOfs + CHUNK_SIZE)])
        (considered + c.graph.length)
      refine ⟨t2, e2, ?_⟩
      have hstep : getAllChunksGo field less greater
            ((c :: pre).map FetchOutcome.success ++ rest) fromOfs total results offsets events
            considered =
          getAllChunksGo field less greater (pre.map FetchOutcome.success ++ rest)
            (fromOfs + CHUNK_SIZE) c.total
            (processPage field less greater results c.graph) (offsets ++ [fromOfs])
            ((events ++ [ProgressEvent.start c.total 0]) ++
              [ProgressEvent.update (fromOfs + CHUNK_SIZE)])
            (considered + c.graph.length) := by
        simp [getAllChunksGo, getChunk, hc, ht]
      rw [hstep, he, h1, h2, h3, h4]
    · obtain ⟨t2, e2, he⟩ := ih hpre rest (fromOfs + CHUNK_SIZE) total
        (processPage field less greater results c.graph) (offsets ++ [fromOfs])
        (events ++ [ProgressEvent.update (fromOfs + CHUNK_SIZE)])
        (considered + c.graph.length)
      refine ⟨t2, e2, ?_⟩
      have hstep : getAllChunksGo field less greater
            ((c :: pre).map FetchOutcome.success ++ rest) fromOfs total results offsets events
            considered =
          getAllChunksGo field less greater (pre.map FetchOutcome.success ++ rest)
            (fromOfs + CHUNK_SIZE) total
            (processPage field less greater results c.graph) (offsets ++ [fromOfs])
            (events ++ [ProgressEvent.update (fromOfs + CHUNK_SIZE)])
            (considered + c.graph.length) := by
        simp [getAllChunksGo, getChunk, hc, ht]
      rw [hstep, he, h1, h2, h3, h4]

/-- Variant of `go_pages` for a loop state whose recorded total is already
nonzero: the bar is never restarted, so the events are exactly one update
per page and the total is preserved. -/
lemma go_pages_total (field : String) (less greater : Nat) :
    ∀ (pre : List Chunk), (∀ c ∈ pre, c.graph.length ≠ 0) →
    ∀ (rest : List FetchOutcome) (fromOfs total : Nat), total ≠ 0 →
    ∀ (results : List String) (offsets : List Nat) (events : List ProgressEvent)
      (considered : Nat),
      getAllChunksGo field less greater (pre.map FetchOutcome.success ++ rest)
          fromOfs total results offsets events considered =
        getAllChunksGo field less greater rest (fromOfs + CHUNK_SIZE * pre.length) total
          (results ++ (pre.map (fun c => c.graph.filterMap (matchLine field less greater))).flatten)
          (offsets ++ offsetsFrom fromOfs pre.length)
          (events ++ updatesFrom fromOfs pre.length)
          (considered + (pre.map (fun c => c.graph.length)).sum) := by
  intro pre
  induction pre with
  | nil =>
    intro _ rest fromOfs total _ results offsets events considered
    simp [offsetsFrom, updatesFrom]
  | cons c pre ih =>
    intro hne rest fromOfs total ht results offsets events considered
    have hc : c.graph.length ≠ 0 := hne c (List.mem_cons_self c pre)
    have hpre : ∀ d ∈ pre, d.graph.length ≠ 0 := fun d hd => hne d (List.mem_cons_of_mem c hd)
    have hstep : getAllChunksGo field less greater
          ((c :: pre).map FetchOutcome.success ++ rest) fromOfs total results offsets events
          considered =
        getAllChunksGo field less greater (pre.map FetchOutcome.success ++ rest)
          (fromOfs + CHUNK_SIZE) total
          (processPage field less greater results c.graph) (offsets ++ [fromOfs])
          (events ++ [ProgressEvent.update (fromOfs + CHUNK_SIZE)])
          (considered + c.graph.length) := by
      simp [getAllChunksGo, getChunk, hc, ht]
    rw [hstep, ih hpre rest (fromOfs + CHUNK_SIZE) total ht]
    rw [show fromOfs + CHUNK_SIZE + CHUNK_SIZE * pre.length =
        fromOfs + CHUNK_SIZE * (c :: pre).length by rw [List.length_cons, Nat.mul_succ]; omega]
    rw [show processPage field less greater results c.graph ++
          (pre.map (fun c => c.graph.filterMap (matchLine field less greater))).flatten =
        results ++ ((c :: pre).map (fun c => c.graph.filterMap (matchLine field less greater))).flatten
      by rw [processPage_eq]; simp [List.append_assoc]]
    rw [show (offsets ++ [fromOfs]) ++ offsetsFrom (fromOfs + CHUNK_SIZE) pre.length =
        offsets ++ offsetsFrom fromOfs (c :: pre).length
      by simp [offsetsFrom, List.append_assoc]]
    rw [show (events ++ [ProgressEvent.update (fromOfs + CHUNK_SIZE)]) ++
          updatesFrom (fromOfs + CHUNK_SIZE) pre.length =
        events ++ updatesFrom fromOfs (c :: pre).length
      by simp [updatesFrom, List.append_assoc]]
    rw [show considered + c.graph.length + (pre.map (fun c => c.graph.length)).sum =
        considered + ((c :: pre).map (fun c => c.graph.length)).sum by simp; omega]

/-- A run whose pages are all nonempty never terminates: the source loop
would request pages forever, which the embedding reports as `none` once
the outcome list is exhausted. -/
lemma go_no_empty (field : String) (less greater : Nat) :
    ∀ (chunks : List Chunk), (∀ c ∈ chunks, c.graph.length ≠ 0) →
    ∀ fromOfs total results offsets events considered,
      getAllChunksGo field less greater (chunks.map FetchOutcome.success)
        fromOfs total results offsets events considered = Except.ok none := by
  intro chunks
  induction chunks with
  | nil => intro _ fromOfs total results offsets events considered; rfl
  | cons c chunks ih =>
    intro hne fromOfs total results offsets events considered
    have hc : c.graph.length ≠ 0 := hne c (List.mem_cons_self c chunks)
    have hchunks : ∀ d ∈ chunks, d.graph.length ≠ 0 :=
      fun d hd => hne d (List.mem_cons_of_mem c hd)
    simp only [List.map_cons, getAllChunksGo, getChunk, if_neg hc]
    exact ih hchunks _ _ _ _ _ _

lemma dropWhile_append_of_forall {p : Char → Bool} :
    ∀ (a b : List Char), (∀ x ∈ a, p x = true) →
      List.dropWhile p (a ++ b) = List.dropWhile p b := by
  intro a
  induction a with
  | nil => intro b _; rfl
  | cons c a ih =>
    intro b h
    rw [List.cons_append, List.dropWhile_cons, if_pos (h c (List.mem_cons_self c a)),
      ih b (fun x hx => h x (List.mem_cons_of_mem c hx))]

/-- C1: for every sequence of pages returned by the server, the fetch loop
requests pages at offsets 0, 500, 1000, ... (advancing by the fixed page
size 500 after each non-empty page) and terminates exactly when a
requested page contains zero records, with no early stop based on the
reported total (the pages' totals are arbitrary here): over a run of
nonempty pages `pre` followed by an empty page, exactly `pre.length + 1`
requests are issued at the multiples of `CHUNK_SIZE`, and exactly the
records of the nonempty pages are considered; and a response sequence
with no empty page never terminates the loop. -/
theorem C1_pagination_offsets_and_termination :
    (∀ (field : String) (less greater : Nat) (pre : List Chunk) (empty : Chunk)
       (post : List FetchOutcome),
       (∀ c ∈ pre, c.graph.length ≠ 0) → empty.graph.length = 0 →
       ∃ out, getAllChunks field less greater
           (pre.map FetchOutcome.success ++ FetchOutcome.success empty :: post) =
           Except.ok (some out) ∧
         out.offsets = (List.range (pre.length + 1)).map (fun i => CHUNK_SIZE * i) ∧
         out.offsets.length = pre.length + 1 ∧
         out.considered = (pre.map (fun c => c.graph.length)).sum) ∧
    (∀ (field : String) (less greater : Nat) (chunks : List Chunk),
       (∀ c ∈ chunks, c.graph.length ≠ 0) →
       getAllChunks field less greater (chunks.map FetchOutcome.success) =
         Except.ok none) := by
  constructor
  · intro field less greater pre empty post hpre hempty
    obtain ⟨t2, e2, he⟩ := go_pages field less greater pre hpre
      (FetchOutcome.success empty :: post) 0 0 [] [] [] 0
    have hrun : getAllChunks field less greater
        (pre.map FetchOutcome.success ++ FetchOutcome.success empty :: post) =
        Except.ok (some
          ⟨(pre.map (fun c => c.graph.filterMap (matchLine field less greater))).flatten,
            offsetsFrom 0 pre.length ++ [CHUNK_SIZE * pre.length], e2,
            (pre.map (fun c => c.graph.length)).sum⟩) := by
      rw [getAllChunks, he]
      simp [getAllChunksGo, getChunk, hempty]
    refine ⟨_, hrun, ?_, ?_, rfl⟩
    · show offsetsFrom 0 pre.length ++ [CHUNK_SIZE * pre.length] = _
      rw [offsetsFrom_eq, List.range_succ]
      simp
    · show (offsetsFrom 0 pre.length ++ [CHUNK_SIZE * pre.length]).length = _
      rw [offsetsFrom_eq]
      simp
  · intro field less greater chunks h
    exact go_no_empty field less greater chunks h 0 0 [] [] [] 0

set_option maxRecDepth 8000 in
/-- Witness for C1 at the spec's scenario: pages of 500 then 3 records,
then an empty page, give exactly 3 requests at offsets 0, 500, 1000 and
503 records considered. -/
theorem C1_pagination_offsets_and_termination_witness :
    ∃ out, getAllChunks "files.@id" defaultLess 1
        ([Chunk.mk 503 (List.replicate 500 []),
          Chunk.mk 503 (List.replicate 3 [])].map FetchOutcome.success ++
          FetchOutcome.success (Chunk.mk 503 []) :: []) =
        Except.ok (some out) ∧
      out.offsets = [0, 500, 1000] ∧ out.offsets.length = 3 ∧ out.considered = 503 := by
  obtain ⟨out, h1, h2, h3, h4⟩ :=
    C1_pagination_offsets_and_termination.1 "files.@id" defaultLess 1
      [Chunk.mk 503 (List.replicate 500 []), Chunk.mk 503 (List.replicate 3 [])]
      (Chunk.mk 503 []) [] (by decide) rfl
  refine ⟨out, h1, ?_, ?_, ?_⟩
  · rw [h2]; decide
  · rw [h3]; decide
  · rw [h4]; decide

/-- C3: for every dotted field path containing a dot, the parent path is
the path with its final dot-separated segment removed; and a path with
no dot is its own parent path, so the field's own value is measured
directly. -/
theorem C3_parent_path :
    (∀ (q s : String), ('.') ∉ s.data → parentPath (q ++ "." ++ s) = q) ∧
    (∀ p : String, ('.') ∉ p.data → parentPath p = p) := by
  constructor
  · intro q s hs
    have hdata : (q ++ "." ++ s).data = q.data ++ '.' :: s.data := by
      rw [String.data_append, String.data_append,
        show (".".data : List Char) = ['.'] from by decide]
      simp
    have h1 : (q.data ++ '.' :: s.data).reverse = s.data.reverse ++ '.' :: q.data.reverse := by
      simp [List.reverse_append]
    have hall : ∀ x ∈ s.data.reverse, (fun c => decide (¬ c = '.')) x = true := by
      intro x hx
      have hxs : x ∈ s.data := List.mem_reverse.mp hx
      simp only [decide_eq_true_eq]
      intro he
      subst he
      exact hs hxs
    have h2 : List.dropWhile (fun c => decide (¬ c = '.'))
        (s.data.reverse ++ '.' :: q.data.reverse) = '.' :: q.data.reverse := by
      rw [dropWhile_append_of_forall _ _ hall]
      simp [List.dropWhile_cons]
    simp only [parentPath, hdata]
    rw [if_pos (by simp)]
    simp only [beforeLast, h1, h2, List.drop_succ_cons, List.drop_zero, List.reverse_reverse]
  · intro p hp
    simp only [parentPath]
    rw [if_neg hp]

/-- Witness for C3 at the spec's examples: the parent of `files.@id` is
`files`, and `status`, having no dot, is its own parent path. -/
theorem C3_parent_path_witness :
    (('.') ∉ "@id".data ∧ parentPath ("files" ++ "." ++ "@id") = "files") ∧
    (('.') ∉ "status".data ∧ parentPath "status" = "status") :=
  ⟨⟨by decide, C3_parent_path.1 "files" "@id" (by decide)⟩,
    ⟨by decide, C3_parent_path.2 "status" (by decide)⟩⟩

/-- C4: a record whose parent-path value is absent is excluded regardless
of the bounds; and once any intermediate access along the dotted path is
undefined, the remaining walk stays undefined, so a missing intermediate
key also excludes the record. -/
theorem C4_absent_value_excluded :
    (∀ (field : String) (less greater : Nat) (obj : Record),
       getObjectFieldValue obj (parentPath field) = none →
       matchLine field less greater obj = none) ∧
    (∀ parts : List String, walkPath none parts = none) := by
  constructor
  · intro field less greater obj h
    simp [matchLine, h]
  · intro parts
    induction parts with
    | nil => rfl
    | cons p parts ih =>
      simp only [walkPath, List.foldl_cons]
      exact ih

/-- Witness for C4: a record with no `files` property is excluded from a
`files.@id` search even under bounds admitting every length. -/
theorem C4_absent_value_excluded_witness :
    getObjectFieldValue [("@id", JValue.vStr "/exp/1")] (parentPath "files.@id") = none ∧
    matchLine "files.@id" 1000 0 [("@id", JValue.vStr "/exp/1")] = none := by
  have h : getObjectFieldValue [("@id", JValue.vStr "/exp/1")] (parentPath "files.@id") =
      none := rfl
  exact ⟨h, C4_absent_value_excluded.1 "files.@id" 1000 0 _ h⟩

/-- C9 (implicit): a record whose resolved parent-path value is present
but falsy (empty string, 0, `false`, null) is excluded regardless of the
bounds, and so is a record whose value carries no numeric length (an
object without a numeric "length" key, or a number), since the guard's
comparisons fail on an undefined length. -/
theorem C9_falsy_or_lengthless_excluded :
    (∀ (field : String) (less greater : Nat) (obj : Record) (v : JValue),
       getObjectFieldValue obj (parentPath field) = some v →
       (truthy v = false → matchLine field less greater obj = none) ∧
       (∀ kvs, v = JValue.vObj kvs → lookupKey kvs "length" = none →
         matchLine field less greater obj = none) ∧
       (∀ n : Int, v = JValue.vNum n → matchLine field less greater obj = none)) ∧
    truthy (JValue.vStr "") = false ∧ truthy (JValue.vNum 0) = false ∧
    truthy (JValue.vBool false) = false ∧ truthy JValue.vNull = false ∧
    lengthProp (JValue.vObj []) = none ∧ lengthProp (JValue.vNum 5) = none := by
  refine ⟨?_, rfl, rfl, rfl, rfl, rfl, rfl⟩
  intro field less greater obj v hv
  refine ⟨fun ht => ?_, fun kvs hk hlen => ?_, fun n hn => ?_⟩
  · simp [matchLine, hv, ht]
  · subst hk
    simp [matchLine, hv, lengthProp, hlen]
  · subst hn
    simp [matchLine, hv, lengthProp]

/-- Witness for C9: a record whose `status` is the empty string is
excluded even under bounds `0 ≤ L ≤ 5` that admit its length 0. -/
theorem C9_falsy_or_lengthless_excluded_witness :
    getObjectFieldValue [("@id", JValue.vStr "/x"), ("status", JValue.vStr "")]
      (parentPath "status") = some (JValue.vStr "") ∧
    matchLine "status" 5 0 [("@id", JValue.vStr "/x"), ("status", JValue.vStr "")] = none := by
  have h : getObjectFieldValue [("@id", JValue.vStr "/x"), ("status", JValue.vStr "")]
      (parentPath "status") = some (JValue.vStr "") := rfl
  exact ⟨h, (C9_falsy_or_lengthless_excluded.1 "status" 5 0 _ _ h).1 rfl⟩

set_option maxRecDepth 4000 in
/-- C5: with no bounds given on the command line the effective bounds are
`greater = 1` and `less = Number.MAX_VALUE`, which admit exactly the
records whose parent-path value has length at least 1 (lengths being
below the JavaScript length bound 2^32); in particular an empty-array
value is excluded under the defaults. -/
theorem C5_default_bounds :
    ∀ (field : String) (obj : Record) (v : JValue) (L : Nat),
      getObjectFieldValue obj (parentPath field) = some v →
      lengthProp v = some L → L < 2 ^ 32 →
      (((matchLine field defaultLess defaultGreater obj).isSome = true) ↔ 1 ≤ L) ∧
      (v = JValue.vArr [] → matchLine field defaultLess defaultGreater obj = none) := by
  intro field obj v L hv hL hbound
  have hle : L ≤ defaultLess := by
    calc L ≤ 2 ^ 32 := le_of_lt hbound
    _ ≤ 2 ^ 971 := Nat.pow_le_pow_right (by norm_num) (by norm_num)
    _ ≤ (2 ^ 53 - 1) * 2 ^ 971 := Nat.le_mul_of_pos_left _ (by norm_num)
  have key : matchLine field defaultLess defaultGreater obj =
      if truthy v then
        (if defaultGreater ≤ L ∧ L ≤ defaultLess then
          some (jsTemplate (lookupKey obj "@id") ++ " - " ++ toString L)
        else none)
      else none := by
    simp [matchLine, hv, hL]
  have hiff : ((matchLine field defaultLess defaultGreater obj).isSome = true) ↔ 1 ≤ L := by
    by_cases htv : truthy v = true
    · rw [key, if_pos htv]
      by_cases hg : defaultGreater ≤ L ∧ L ≤ defaultLess
      · rw [if_pos hg]
        simpa using hg.1
      · rw [if_neg hg]
        simp only [Option.isSome_none, Bool.false_eq_true, false_iff]
        intro h1
        exact hg ⟨h1, hle⟩
    · have hL0 : L = 0 := by
        cases v with
        | vStr t =>
          have ht : t = "" := by
            by_contra hne
            simp [truthy, hne] at htv
          subst ht
          simp [lengthProp] at hL
          omega
        | vArr xs => simp [truthy] at htv
        | vObj kvs => simp [truthy] at htv
        | vNum n => simp [lengthProp] at hL
        | vBool b => simp [lengthProp] at hL
        | vNull => simp [lengthProp] at hL
      rw [key, if_neg htv]
      simp [hL0]
  refine ⟨hiff, fun hv0 => ?_⟩
  subst hv0
  have hL0 : L = 0 := by simpa [lengthProp] using hL.symm
  have : ¬ ((matchLine field defaultLess defaultGreater obj).isSome = true) := by
    rw [hiff, hL0]
    omega
  cases hm : matchLine field defaultLess defaultGreater obj with
  | none => rfl
  | some w => rw [hm] at this; simp at this

/-- Witness for C5: under the default bounds a record with two files is
admitted while a record with an empty `files` array is excluded. -/
theorem C5_default_bounds_witness :
    (matchLine "files.@id" defaultLess defaultGreater
        [("@id", JValue.vStr "/exp/1"),
          ("files", JValue.vArr [JValue.vStr "a", JValue.vStr "b"])]).isSome = true ∧
    matchLine "files.@id" defaultLess defaultGreater
        [("@id", JValue.vStr "/exp/2"), ("files", JValue.vArr [])] = none := by
  constructor
  · exact (C5_default_bounds "files.@id"
      [("@id", JValue.vStr "/exp/1"),
        ("files", JValue.vArr [JValue.vStr "a", JValue.vStr "b"])]
      (JValue.vArr [JValue.vStr "a", JValue.vStr "b"]) 2 rfl rfl
      (by norm_num)).1.mpr (by norm_num)
  · exact (C5_default_bounds "files.@id"
      [("@id", JValue.vStr "/exp/2"), ("files", JValue.vArr [])]
      (JValue.vArr []) 0 rfl rfl (by norm_num)).2 rfl

/-- Counterexample to C2 as stated: a record whose parent-path value is
the empty string has length 0, which lies within the bounds
`0 ≤ L ≤ 5`, yet the run appends nothing for it — the guard's
truthiness check (`value && ...`) rejects the falsy empty string before
the length comparisons run, so a record occurrence whose value length
lies within the bounds is not always appended. -/
theorem C2_exact_once_counterexample :
    lengthProp (JValue.vStr "") = some 0 ∧ (0 : Nat) ≤ 0 ∧ (0 : Nat) ≤ 5 ∧
    getObjectFieldValue [("@id", JValue.vStr "/exp/1"), ("status", JValue.vStr "")]
      (parentPath "status") = some (JValue.vStr "") ∧
    getAllChunks "status" 5 0
      [FetchOutcome.success ⟨1, [[("@id", JValue.vStr "/exp/1"), ("status", JValue.vStr "")]]⟩,
        FetchOutcome.success ⟨1, []⟩] =
      Except.ok (some ⟨[], [0, 500], [ProgressEvent.start 1 0, ProgressEvent.update 500], 1⟩) := by
  refine ⟨rfl, Nat.le_refl 0, by decide, rfl, rfl⟩

/-- C2 as amended: for every record occurrence whose resolved parent-path
value is truthy and has length within the inclusive bounds, the line
"<id> - <length>" is appended exactly once for that occurrence, and the
whole result set is the concatenation, page by page and record by record
in encounter order, of the per-record lines — append-only and never
reordered. -/
theorem C2_results_page_record_order :
    ∀ (field : String) (less greater : Nat) (pre : List Chunk) (empty : Chunk)
      (post : List FetchOutcome),
      (∀ c ∈ pre, c.graph.length ≠ 0) → empty.graph.length = 0 →
      ∃ out, getAllChunks field less greater
          (pre.map FetchOutcome.success ++ FetchOutcome.success empty :: post) =
          Except.ok (some out) ∧
        out.results =
          (pre.map (fun c => c.graph.filterMap (matchLine field less greater))).flatten ∧
        (∀ (obj : Record) (v : JValue) (k : Nat),
          getObjectFieldValue obj (parentPath field) = some v → truthy v = true →
          lengthProp v = some k → greater ≤ k → k ≤ less →
          matchLine field less greater obj =
            some (jsTemplate (lookupKey obj "@id") ++ " - " ++ toString k)) := by
  intro field less greater pre empty post hpre hempty
  obtain ⟨t2, e2, he⟩ := go_pages field less greater pre hpre
    (FetchOutcome.success empty :: post) 0 0 [] [] [] 0
  have hrun : getAllChunks field less greater
      (pre.map FetchOutcome.success ++ FetchOutcome.success empty :: post) =
      Except.ok (some
        ⟨(pre.map (fun c => c.graph.filterMap (matchLine field less greater))).flatten,
          offsetsFrom 0 pre.length ++ [CHUNK_SIZE * pre.length], e2,
          (pre.map (fun c => c.graph.length)).sum⟩) := by
    rw [getAllChunks, he]
    simp [getAllChunksGo, getChunk, hempty]
  refine ⟨_, hrun, rfl, ?_⟩
  intro obj v k hv htv hk hg hl
  simp [matchLine, hv, htv, hk, hg, hl]

set_option maxRecDepth 4000 in
/-- Witness for the amended C2 at the spec's scenario: one page holding
one record with two files followed by an empty page yields exactly the
line `/exp/1 - 2`. -/
theorem C2_results_page_record_order_witness :
    ∃ out, getAllChunks "files.@id" defaultLess defaultGreater
        ([Chunk.mk 7 [[("@id", JValue.vStr "/exp/1"),
            ("files", JValue.vArr [JValue.vStr "a", JValue.vStr "b"])]]].map
            FetchOutcome.success ++
          FetchOutcome.success (Chunk.mk 7 []) :: []) =
        Except.ok (some out) ∧
      out.results = ["/exp/1 - 2"] := by
  obtain ⟨out, h1, h2, _⟩ :=
    C2_results_page_record_order "files.@id" defaultLess defaultGreater
      [Chunk.mk 7 [[("@id", JValue.vStr "/exp/1"),
        ("files", JValue.vArr [JValue.vStr "a", JValue.vStr "b"])]]]
      (Chunk.mk 7 []) [] (by decide) rfl
  exact ⟨out, h1, by rw [h2]; decide⟩

/-- C6: a failed page request (non-success status or network failure) is
logged and swallowed: the fetch call resolves to an undefined page
instead of propagating or retrying, and the loop's next access — reading
the record array off that undefined page — throws and crashes the run. -/
theorem C6_failed_request_crashes :
    ∀ (field : String) (less greater : Nat) (pre : List Chunk) (oc : FetchOutcome)
      (rest : List FetchOutcome),
      (∀ c ∈ pre, c.graph.length ≠ 0) →
      (oc = FetchOutcome.httpError ∨ oc = FetchOutcome.networkError) →
      (getChunk oc).1 = none ∧ (getChunk oc).2.length = 1 ∧
      getAllChunks field less greater (pre.map FetchOutcome.success ++ oc :: rest) =
        Except.error JsError.typeError := by
  intro field less greater pre oc rest hpre hoc
  have h1 : (getChunk oc).1 = none := by
    rcases hoc with h | h <;> subst h <;> rfl
  have h2 : (getChunk oc).2.length = 1 := by
    rcases hoc with h | h <;> subst h <;> rfl
  refine ⟨h1, h2, ?_⟩
  obtain ⟨t2, e2, he⟩ := go_pages field less greater pre hpre (oc :: rest) 0 0 [] [] [] 0
  rw [getAllChunks, he]
  simp [getAllChunksGo, h1]

/-- Witness for C6: a run whose very first request gets a non-success
HTTP status resolves that page to undefined after one log line and
crashes with the type error. -/
theorem C6_failed_request_crashes_witness :
    (getChunk FetchOutcome.httpError).1 = none ∧
    (getChunk FetchOutcome.httpError).2.length = 1 ∧
    getAllChunks "files.@id" 10 1 [FetchOutcome.httpError] =
      Except.error JsError.typeError :=
  C6_failed_request_crashes "files.@id" 10 1 [] FetchOutcome.httpError []
    (fun c hc => absurd hc (List.not_mem_nil c)) (Or.inl rfl)

/-- Counterexample to C8 as stated: when the first non-empty page reports
a total of 0, the loop's `total === 0` test stays true, so the next
non-empty page initializes the progress indicator a second time — the
initialization is not guaranteed to happen only once per run. -/
theorem C8_progress_counterexample :
    ∃ out, getAllChunks "files.@id" 10 1
        [FetchOutcome.success ⟨0, [[("@id", JValue.vStr "/a")]]⟩,
          FetchOutcome.success ⟨9, [[("@id", JValue.vStr "/b")]]⟩,
          FetchOutcome.success ⟨9, []⟩] = Except.ok (some out) ∧
      out.events = [ProgressEvent.start 0 0, ProgressEvent.update 500,
        ProgressEvent.start 9 0, ProgressEvent.update 1000] ∧
      out.events.countP ProgressEvent.isStart = 2 := by
  exact ⟨⟨[], [0, 500, 1000],
    [ProgressEvent.start 0 0, ProgressEvent.update 500,
      ProgressEvent.start 9 0, ProgressEvent.update 1000], 2⟩, rfl, rfl, rfl⟩

/-- C8 as amended: on the first non-empty page the reported total is read
and used to start the progress indicator at upper bound `total`, and —
provided that reported total is nonzero (a zero total leaves the
`total === 0` test true and re-runs the initialization on later pages,
see the counterexample) — this happens exactly once per run; after each
non-empty page the offset advances by `CHUNK_SIZE` and the indicator is
updated to the new offset. -/
theorem C8_progress_events :
    ∀ (field : String) (less greater : Nat) (first : Chunk) (pre : List Chunk)
      (empty : Chunk) (post : List FetchOutcome),
      first.graph.length ≠ 0 → first.total ≠ 0 →
      (∀ c ∈ pre, c.graph.length ≠ 0) → empty.graph.length = 0 →
      ∃ out, getAllChunks field less greater
          ((first :: pre).map FetchOutcome.success ++ FetchOutcome.success empty :: post) =
          Except.ok (some out) ∧
        out.events = ProgressEvent.start first.total 0 ::
          (List.range (pre.length + 1)).map
            (fun i => ProgressEvent.update (CHUNK_SIZE * (i + 1))) ∧
        out.events.countP ProgressEvent.isStart = 1 := by
  intro field less greater first pre empty post hfirst htot hpre hempty
  have hstep : getAllChunks field less greater
      ((first :: pre).map FetchOutcome.success ++ FetchOutcome.success empty :: post) =
      getAllChunksGo field less greater
        (pre.map FetchOutcome.success ++ FetchOutcome.success empty :: post)
        CHUNK_SIZE first.total (processPage field less greater [] first.graph) [0]
        [ProgressEvent.start first.total 0, ProgressEvent.update CHUNK_SIZE]
        first.graph.length := by
    simp [getAllChunks, getAllChunksGo, getChunk, hfirst]
  have hrest := go_pages_total field less greater pre hpre
    (FetchOutcome.success empty :: post) CHUNK_SIZE first.total htot
    (processPage field less greater [] first.graph) [0]
    [ProgressEvent.start first.total 0, ProgressEvent.update CHUNK_SIZE]
    first.graph.length
  have hrun : getAllChunks field less greater
      ((first :: pre).map FetchOutcome.success ++ FetchOutcome.success empty :: post) =
      Except.ok (some
        ⟨processPage field less greater [] first.graph ++
            (pre.map (fun c => c.graph.filterMap (matchLine field less greater))).flatten,
          ([0] ++ offsetsFrom CHUNK_SIZE pre.length) ++ [CHUNK_SIZE + CHUNK_SIZE * pre.length],
          [ProgressEvent.start first.total 0, ProgressEvent.update CHUNK_SIZE] ++
            updatesFrom CHUNK_SIZE pre.length,
          first.graph.length + (pre.map (fun c => c.graph.length)).sum⟩) := by
    rw [hstep, hrest]
    simp [getAllChunksGo, getChunk, hempty]
  have hevents : [ProgressEvent.start first.total 0, ProgressEvent.update CHUNK_SIZE] ++
      updatesFrom CHUNK_SIZE pre.length =
      ProgressEvent.start first.total 0 ::
        (List.range (pre.length + 1)).map
          (fun i => ProgressEvent.update (CHUNK_SIZE * (i + 1))) := by
    have : ProgressEvent.update CHUNK_SIZE :: updatesFrom CHUNK_SIZE pre.length =
        updatesFrom 0 (pre.length + 1) := by
      rw [updatesFrom]
      simp
    rw [List.cons_append, List.singleton_append, this, updatesFrom_eq]
    simp
  refine ⟨_, hrun, hevents, ?_⟩
  rw [hevents]
  simp [List.countP_cons, List.countP_map, ProgressEvent.isStart, Function.comp]

/-- Witness for the amended C8: one nonempty page reporting total 9, then
an empty page: the bar is started once at 9 and updated to 500. -/
theorem C8_progress_events_witness :
    ∃ out, getAllChunks "files.@id" 10 1
        ([Chunk.mk 9 [[("@id", JValue.vStr "/a")]]].map FetchOutcome.success ++
          FetchOutcome.success (Chunk.mk 9 []) :: []) = Except.ok (some out) ∧
      out.events = [ProgressEvent.start 9 0, ProgressEvent.update 500] ∧
      out.events.countP ProgressEvent.isStart = 1 := by
  obtain ⟨out, h1, h2, h3⟩ :=
    C8_progress_events "files.@id" 10 1 (Chunk.mk 9 [[("@id", JValue.vStr "/a")]]) []
      (Chunk.mk 9 []) [] (by decide) (by decide) (by simp) rfl
  exact ⟨out, h1, by rw [h2]; decide, h3⟩

/-- C7: the per-page request URL is
`host/report/?type=TYPE&FILTERS&limit=500&from=OFFSET&field=ENCODEDFIELD`
with the extra-filter segment omitted when the filter string is empty,
and the field-path encoding escapes the parentheses as `%28`/`%29`,
leaves the colon literal, and turns spaces into `+` rather than `%20`. -/
theorem C7_request_url_and_encoding :
    (∀ (host type filters field : String) (fromOfs : Nat),
       searchUrl host type filters fromOfs field =
         host ++ ("/report/?type=" ++ (type ++
           ((if filters = "" then "" else "&" ++ filters) ++
             ("&limit=500&from=" ++ (toString fromOfs ++
               ("&field=" ++ encodedURIComponent field))))))) ∧
    encodedURIComponent "(" = "%28" ∧ encodedURIComponent ")" = "%29" ∧
    encodedURIComponent ":" = ":" ∧ encodedURIComponent " " = "+" ∧
    encodedURIComponent " " ≠ "%20" ∧
    encodedURIComponent "a b(c):d" = "a+b%28c%29:d" := by
  refine ⟨?_, by decide, by decide, by decide, by decide, by decide, by decide⟩
  intro host type filters field fromOfs
  have hlit : ("&limit=" ++ toString CHUNK_SIZE ++ "&from=" : String) = "&limit=500&from=" := by
    decide
  calc searchUrl host type filters fromOfs field
      = host ++ "/report/?type=" ++ type ++ (if filters = "" then "" else "&" ++ filters) ++
          ("&limit=" ++ toString CHUNK_SIZE ++ "&from=") ++ toString fromOfs ++
          "&field=" ++ encodedURIComponent field := by
        rw [searchUrl]
        simp [String.append_assoc]
    _ = _ := by
        rw [hlit]
        simp [String.append_assoc]

/-- C10: every page request carries exactly the Accept and Content-Type
headers and never an Authorization header, independently of the auth
argument — even though the main flow computes a Basic-Auth string from
the keyfile credentials and passes it into the fetch routine. -/
theorem C10_headers_no_authorization :
    (∀ (host auth type field filters : String) (fromOfs : Nat),
       (getChunkRequest host auth type field filters fromOfs).headers =
         [("Accept", "application/json"), ("Content-Type", "application/json")] ∧
       ((getChunkRequest host auth type field filters fromOfs).headers.map
         Prod.fst).contains "Authorization" = false ∧
       (∀ auth2, getChunkRequest host auth2 type field filters fromOfs =
         getChunkRequest host auth type field filters fromOfs)) ∧
    (∀ (entry : KeyfileEntry) (type field filters : String) (fromOfs : Nat),
       mainChunkRequest entry type field filters fromOfs =
         getChunkRequest entry.server (keypairToAuth entry.key entry.secret) type field
           filters fromOfs ∧
       (mainChunkRequest entry type field filters fromOfs).headers =
         [("Accept", "application/json"), ("Content-Type", "application/json")]) ∧
    keypairToAuth "foo" "bar" = "Basic Zm9vOmJhcg==" := by
  refine ⟨?_, ?_, by decide⟩
  · intro host auth type field filters fromOfs
    exact ⟨rfl, rfl, fun auth2 => rfl⟩
  · intro entry type field filters fromOfs
    exact ⟨rfl, rfl⟩

end SearchArrayLengths
